import Mathlib

/-!
Shallow embedding of `cava_stock_monitor.py`, a daily stock monitor for a
Shopify catalog.  The embedding mirrors the source file:

* `fetch_products_page` / `fetch_all_products`  — paginated catalog fetch;
* `build_report_via_products_json`              — three-bucket classifier;
* `extract_state_from_report`                   — report → snapshot;
* `load_previous_state` / `save_current_state`  — snapshot persistence;
* `has_changes`                                 — snapshot comparison;
* `send_email` (credential check) and `main`    — pipeline control flow.

Python dicts are modelled as association lists with unique keys; dict
equality is key-set plus per-key value equality (order independent), and
`d[k] = v` updates in place or appends.  Python truthiness of strings
(`""`/`None` falsy) and of the `available` field (`None` falsy, absent key
defaulting to `True`) is modelled explicitly.  Python's `sorted` on strings
compares lexicographically by code point, modelled by `charsLe` below.
-/

/-- One variant record from the catalog JSON.  `option1` and `title` are the
size-label sources (`none` = key absent or null, both falsy in Python).
`available` distinguishes key absent (`none`, Python defaults to `True`),
key present with null (`some none`, falsy), and a boolean
(`some (some b)`). -/
structure Variant where
  option1 : Option String
  title : Option String
  available : Option (Option Bool)
deriving DecidableEq, Repr

/-- One product record from the catalog JSON. `title`/`handle` are `none`
when the key is absent. -/
structure Product where
  title : Option String
  handle : Option String
  variants : List Variant
deriving DecidableEq, Repr

/-- Python truthiness of an optional string: `None` and `""` are falsy. -/
def truthyStr : Option String → Bool
  | none => false
  | some s => !(s == "")

/-- Base catalog URL, the `BASE_URL` constant of the source. -/
def BASE_URL : String := "https://cavaathleisure.com"

/-- Python `p.get("title", "Unknown product")`. -/
def pTitle (p : Product) : String := p.title.getD "Unknown product"

/-- Canonical product URL, `urljoin(BASE_URL, f"/products/{handle}")`; for an
absolute path the join is plain concatenation of base and path. -/
def purl (p : Product) : String := BASE_URL ++ "/products/" ++ p.handle.getD ""

/-- Size label of a variant: `v.get("option1") or v.get("title")` followed by
the `if not size: continue` guard; `none` means the variant is skipped. -/
def resolvedSize (v : Variant) : Option String :=
  if truthyStr v.option1 then v.option1
  else if truthyStr v.title then v.title
  else none

/-- Truthiness of `v.get("available", True)`: absent key defaults to `True`,
a null value is falsy, a boolean is itself. -/
def truthyAvail (v : Variant) : Bool :=
  match v.available with
  | none => true
  | some none => false
  | some (some b) => b

/-- Size labels appended to `available_sizes` by the classifier loop, in
variant order. -/
def availList (p : Product) : List String :=
  p.variants.filterMap fun v =>
    match resolvedSize v with
    | some s => if truthyAvail v then some s else none
    | none => none

/-- Size labels appended to `unavailable_sizes` by the classifier loop, in
variant order. -/
def unavailList (p : Product) : List String :=
  p.variants.filterMap fun v =>
    match resolvedSize v with
    | some s => if truthyAvail v then none else some s
    | none => none

/-- The loop counter `total_variants_with_size`. -/
def sizedCount (p : Product) : Nat :=
  (p.variants.filterMap resolvedSize).length

/-- Code-point lexicographic comparison of char lists, Python's string
ordering. -/
def charsLe : List Char → List Char → Bool
  | [], _ => true
  | _ :: _, [] => false
  | a :: as, b :: bs =>
    if a.toNat < b.toNat then true
    else if b.toNat < a.toNat then false
    else charsLe as bs

/-- Python string `<=`, as a relation usable by `List.insertionSort`. -/
def strLeR (a b : String) : Prop := charsLe a.data b.data = true

instance : DecidableRel strLeR := fun a b => by unfold strLeR; infer_instance

/-- Python `sorted(set(l))` for string lists: sort ascending by code point,
drop duplicates. -/
def sortDedup (l : List String) : List String :=
  (l.insertionSort strLeR).dedup

/-- Classification status; `part` models the `"partial"` bucket tag of the
source (the literal word is a Lean keyword). -/
inductive Status
  | part
  | full_in_stock
  | full_oos
deriving DecidableEq, Repr

/-- Bucket tag string as written into the snapshot file. -/
def statusStr : Status → String
  | Status.part => "partial"
  | Status.full_in_stock => "full_in_stock"
  | Status.full_oos => "full_oos"

/-- Inverse of `statusStr`, used when decoding a persisted snapshot. -/
def statusOfString (s : String) : Option Status :=
  if s = "partial" then some Status.part
  else if s = "full_in_stock" then some Status.full_in_stock
  else if s = "full_oos" then some Status.full_oos
  else none

/-- Value stored for one product inside a report bucket. -/
structure REntry where
  title : String
  available_sizes : List String
  unavailable_sizes : List String
deriving DecidableEq, Repr

/-- The three-bucket report of `build_report_via_products_json`; each bucket
is a dict keyed by product URL (`part` models the `"partial"` bucket). -/
structure Report where
  part : List (String × REntry)
  full_in_stock : List (String × REntry)
  full_oos : List (String × REntry)
deriving DecidableEq, Repr

/-- Dict lookup on an association list (first match). -/
def lookupA {α : Type} : List (String × α) → String → Option α
  | [], _ => none
  | p :: m, k => if p.1 = k then some p.2 else lookupA m k

/-- Python `d[k] = v`: replace the value in place if the key exists,
otherwise append the new binding. -/
def dinsert {α : Type} : List (String × α) → String → α → List (String × α)
  | [], k, v => [(k, v)]
  | p :: m, k, v => if p.1 = k then (k, v) :: m else p :: dinsert m k v

/-- Per-product body of the classifier loop: skip on falsy handle, skip when
no variant has a usable size, otherwise classify by the two sorted
deduplicated size sets exactly as the source's `if`/`elif` chain does. -/
def classifyProduct (p : Product) : Option (String × Status × REntry) :=
  if truthyStr p.handle then
    let ua := sortDedup (availList p)
    let uu := sortDedup (unavailList p)
    if sizedCount p = 0 then none
    else if ua ≠ [] ∧ uu ≠ [] then some (purl p, Status.part, ⟨pTitle p, ua, uu⟩)
    else if ua ≠ [] ∧ uu = [] then some (purl p, Status.full_in_stock, ⟨pTitle p, ua, []⟩)
    else if uu ≠ [] ∧ ua = [] then some (purl p, Status.full_oos, ⟨pTitle p, [], uu⟩)
    else none
  else none

/-- Bucket of a report addressed by status. -/
def bucketOf (r : Report) : Status → List (String × REntry)
  | Status.part => r.part
  | Status.full_in_stock => r.full_in_stock
  | Status.full_oos => r.full_oos

/-- Store one classification result into its bucket. -/
def insertReport (r : Report) (c : String × Status × REntry) : Report :=
  match c.2.1 with
  | Status.part => { r with part := dinsert r.part c.1 c.2.2 }
  | Status.full_in_stock => { r with full_in_stock := dinsert r.full_in_stock c.1 c.2.2 }
  | Status.full_oos => { r with full_oos := dinsert r.full_oos c.1 c.2.2 }

/-- One iteration of the product loop of `build_report_via_products_json`. -/
def buildStep (r : Report) (p : Product) : Report :=
  match classifyProduct p with
  | some c => insertReport r c
  | none => r

/-- The report with all three buckets empty. -/
def emptyReport : Report := ⟨[], [], []⟩

/-- `build_report_via_products_json`, taken at its fetch boundary: the body
of the function applied to an already-fetched product list. -/
def buildReport (products : List Product) : Report :=
  products.foldl buildStep emptyReport

/-- Classification results of a product list, in product order. -/
def contribs (ps : List Product) : List (String × Status × REntry) :=
  ps.filterMap classifyProduct

/-- Entry of the last classification result matching a URL and a bucket;
this is the value a sequence of dict stores leaves behind. -/
def contribLast : List (String × Status × REntry) → Status → String → Option REntry
  | [], _, _ => none
  | c :: cs, b, url =>
    match contribLast cs b url with
    | some e => some e
    | none => if c.2.1 = b ∧ c.1 = url then some c.2.2 else none

/-- Value stored per product URL in the persisted snapshot: bucket tag plus
the two size lists. -/
structure SEntry where
  status : Status
  available : List String
  unavailable : List String
deriving DecidableEq, Repr

/-- The flat snapshot dict, keyed by product URL. -/
abbrev Snapshot : Type := List (String × SEntry)

/-- Python `==` on dicts: equal sizes and every binding of the left dict
present with an equal value in the right dict. -/
def dictEq {α : Type} [DecidableEq α] (a b : List (String × α)) : Bool :=
  a.length == b.length &&
    a.all fun p =>
      match lookupA b p.1 with
      | some w => decide (w = p.2)
      | none => false

/-- `has_changes(prev_state, curr_state)`: Python `prev_state != curr_state`
on the two snapshot dicts. -/
def hasChanges (prev curr : Snapshot) : Bool := !(dictEq prev curr)

/-- Structural snapshot equality in the words of the specification: the two
key sets coincide and no shared key maps to a different status or size-set
content. -/
def specStructEq (a b : Snapshot) : Bool :=
  (a.all fun p => (lookupA b p.1).isSome) &&
  (b.all fun p => (lookupA a p.1).isSome) &&
  (a.all fun p =>
    match lookupA b p.1 with
    | some w => decide (p.2 = w)
    | none => true)

/-- Flatten one report bucket into the snapshot accumulator, tagging each
entry with the bucket's status key. -/
def bucketFold (st : Status) (bucket : List (String × REntry)) (acc : Snapshot) : Snapshot :=
  bucket.foldl (fun a q => dinsert a q.1 ⟨st, q.2.available_sizes, q.2.unavailable_sizes⟩) acc

/-- `extract_state_from_report`: flatten the three buckets, in the source's
order `partial`, `full_in_stock`, `full_oos`. -/
def extractStateFromReport (r : Report) : Snapshot :=
  bucketFold Status.full_oos r.full_oos
    (bucketFold Status.full_in_stock r.full_in_stock
      (bucketFold Status.part r.part []))

/-- Status recorded for a URL in a snapshot, if any. -/
def statusInSnapshot (s : Snapshot) (url : String) : Option Status :=
  (lookupA s url).map SEntry.status

/-- Re-derivation of a URL's bucket membership directly from the report (the
specification's reading of "which bucket holds this URL"). -/
def bucketAssignment (r : Report) (url : String) : Option Status :=
  if (lookupA r.part url).isSome then some Status.part
  else if (lookupA r.full_in_stock url).isSome then some Status.full_in_stock
  else if (lookupA r.full_oos url).isSome then some Status.full_oos
  else none

/-- JSON trees, the values `json.load` can produce for the state file. -/
inductive Json
  | null
  | boolean (x : Bool)
  | str (s : String)
  | arr (xs : List Json)
  | obj (fields : List (String × Json))

/-- JSON image of one snapshot entry, as `json.dump` serializes it. -/
def encodeEntry (e : SEntry) : Json :=
  Json.obj
    [("status", Json.str (statusStr e.status)),
     ("available", Json.arr (e.available.map Json.str)),
     ("unavailable", Json.arr (e.unavailable.map Json.str))]

/-- JSON image of a whole snapshot dict. -/
def encodeSnapshot (s : Snapshot) : Json :=
  Json.obj (s.map fun p => (p.1, encodeEntry p.2))

/-- State of `state.json` on disk: absent, unreadable/unparsable, or
readable with a parsed JSON value. -/
inductive FileState
  | missing
  | corrupt
  | content (j : Json)

/-- `save_current_state`: write `{"products": current_state}` to the state
file, replacing whatever was there. -/
def saveCurrentState (s : Snapshot) : FileState :=
  FileState.content (Json.obj [("products", encodeSnapshot s)])

/-- `load_previous_state`: `{}` when the file is missing; any read or parse
error is swallowed into `{}`; otherwise `data.get("products", {})`, where a
non-dict `data` raises and is likewise swallowed into `{}`. -/
def loadPreviousState : FileState → Json
  | FileState.missing => Json.obj []
  | FileState.corrupt => Json.obj []
  | FileState.content j =>
    match j with
    | Json.obj fields => (lookupA fields "products").getD (Json.obj [])
    | _ => Json.obj []

/-- Read back a JSON array of strings. -/
def decodeStrs : List Json → Option (List String)
  | [] => some []
  | Json.str s :: xs =>
    match decodeStrs xs with
    | some l => some (s :: l)
    | none => none
  | _ :: _ => none

/-- Read back one snapshot entry from its JSON image. -/
def decodeEntry (j : Json) : Option SEntry :=
  match j with
  | Json.obj fields =>
    match lookupA fields "status", lookupA fields "available", lookupA fields "unavailable" with
    | some (Json.str st), some (Json.arr av), some (Json.arr un) =>
      match statusOfString st, decodeStrs av, decodeStrs un with
      | some b, some a, some u => some ⟨b, a, u⟩
      | _, _, _ => none
    | _, _, _ => none
  | _ => none

/-- Read back the bindings of a snapshot object. -/
def decodeEntries : List (String × Json) → Option Snapshot
  | [] => some []
  | (k, v) :: rest =>
    match decodeEntry v, decodeEntries rest with
    | some e, some s => some ((k, e) :: s)
    | _, _ => none

/-- Read back a snapshot from its JSON image. -/
def decodeSnapshot (j : Json) : Option Snapshot :=
  match j with
  | Json.obj fields => decodeEntries fields
  | _ => none

/-- Outcome of one `requests.get` on a catalog page: a response with an HTTP
status and a parsed product list, or a raised network/IO exception. -/
inductive PageResult
  | ok (status : Nat) (products : List Product)
  | exc
deriving DecidableEq, Repr

/-- `fetch_products_page`: a raised exception propagates; a non-200 status
returns `[]`; otherwise the page's product list. -/
def fetchProductsPage : PageResult → Except Unit (List Product)
  | PageResult.exc => Except.error ()
  | PageResult.ok status products =>
    if status ≠ 200 then Except.ok [] else Except.ok products

/-- Pagination loop of `fetch_all_products`: stop on the first empty result,
extend the accumulator otherwise; pages beyond the supplied list are
empty. -/
def fetchAllAux : List PageResult → List Product → Except Unit (List Product)
  | [], acc => Except.ok acc
  | r :: rest, acc =>
    match fetchProductsPage r with
    | Except.error e => Except.error e
    | Except.ok [] => Except.ok acc
    | Except.ok (p :: ps) => fetchAllAux rest (acc ++ p :: ps)

/-- `fetch_all_products` over a given sequence of page outcomes. -/
def fetchAllProducts (pages : List PageResult) : Except Unit (List Product) :=
  fetchAllAux pages []

/-- Python `==` between a loaded JSON value and a list of strings. -/
def jsonStrListEq : List Json → List String → Bool
  | [], [] => true
  | Json.str s :: xs, t :: ts => s == t && jsonStrListEq xs ts
  | _, _ => false

/-- Python `==` between a loaded JSON value and one snapshot entry dict. -/
def jsonEqEntry (j : Json) (e : SEntry) : Bool :=
  match j with
  | Json.obj fs =>
    fs.length == 3 &&
    (match lookupA fs "status" with
     | some (Json.str st) => st == statusStr e.status
     | _ => false) &&
    (match lookupA fs "available" with
     | some (Json.arr xs) => jsonStrListEq xs e.available
     | _ => false) &&
    (match lookupA fs "unavailable" with
     | some (Json.arr xs) => jsonStrListEq xs e.unavailable
     | _ => false)
  | _ => false

/-- Python `==` between the loaded previous state and the current snapshot
dict, as evaluated inside `has_changes` during `main`. -/
def jsonEqSnapshot (j : Json) (s : Snapshot) : Bool :=
  match j with
  | Json.obj fs =>
    fs.length == s.length &&
      s.all fun p =>
        match lookupA fs p.1 with
        | some v => jsonEqEntry v p.2
        | none => false
  | _ => false

/-- Run-level configuration drawn from the environment. -/
structure Config where
  smtpUser : Option String
  smtpPassword : Option String
  onlyEmailIfChanges : Bool

/-- The message of the `RuntimeError` raised by `send_email` when SMTP
credentials are missing. -/
def credErrMsg : String :=
  "SMTP_USER and SMTP_PASSWORD must be set in environment variables."

/-- Credential guard at the top of `send_email`; transport after the guard
is external IO, modelled as success. -/
def sendEmailCheck (cfg : Config) : Except String Unit :=
  if !truthyStr cfg.smtpUser || !truthyStr cfg.smtpPassword then
    Except.error credErrMsg
  else Except.ok ()

/-- How a run can abort: an uncaught fetch exception, or the credential
error raised inside `send_email`. -/
inductive RunError
  | fetchErr
  | emailErr (msg : String)
deriving DecidableEq, Repr

/-- Observable result of one run: the state file afterwards, and either a
raised error or a flag telling whether an email went out. -/
structure MainResult where
  fileState : FileState
  outcome : Except RunError Bool

/-- `main`: fetch and classify, flatten to the current snapshot, load the
previous snapshot, compare, save unconditionally, then decide whether to
email; an exception from the fetch propagates before any state is saved. -/
def mainModel (cfg : Config) (pages : List PageResult) (prevFile : FileState) : MainResult :=
  match fetchAllProducts pages with
  | Except.error _ => ⟨prevFile, Except.error RunError.fetchErr⟩
  | Except.ok products =>
    let report := buildReport products
    let curr := extractStateFromReport report
    let prev := loadPreviousState prevFile
    let changed := !(jsonEqSnapshot prev curr)
    let file := saveCurrentState curr
    if cfg.onlyEmailIfChanges && !changed then ⟨file, Except.ok false⟩
    else
      match sendEmailCheck cfg with
      | Except.error m => ⟨file, Except.error (RunError.emailErr m)⟩
      | Except.ok _ => ⟨file, Except.ok true⟩

/-- Two products that are the same record up to the order of their variant
lists. -/
def variantReorder (p q : Product) : Prop :=
  p.title = q.title ∧ p.handle = q.handle ∧ p.variants.Perm q.variants

/-- One product list is a reordering of the other: a permutation of the
list, with each product's variants also permuted. -/
def reordered (ps qs : List Product) : Prop :=
  ∃ ms, ps.Perm ms ∧ List.Forall₂ variantReorder ms qs

/-- Python `==` between two reports (three bucket dicts compared in
order-independent dict fashion). -/
def reportEq (r r' : Report) : Bool :=
  dictEq r.part r'.part &&
  dictEq r.full_in_stock r'.full_in_stock &&
  dictEq r.full_oos r'.full_oos

/-! ## Order properties of the string comparison -/

theorem charsLe_total : ∀ xs ys : List Char, charsLe xs ys = true ∨ charsLe ys xs = true
  | [], _ => Or.inl rfl
  | _ :: _, [] => Or.inr rfl
  | x :: xs, y :: ys => by
    by_cases h1 : x.toNat < y.toNat
    · left; simp [charsLe, h1]
    · by_cases h2 : y.toNat < x.toNat
      · right; simp [charsLe, h1, h2]
      · rcases charsLe_total xs ys with h | h
        · left; simp [charsLe, h1, h2, h]
        · right; simp [charsLe, h1, h2, h]

theorem charsLe_antisymm : ∀ xs ys : List Char,
    charsLe xs ys = true → charsLe ys xs = true → xs = ys
  | [], [] => fun _ _ => rfl
  | [], _ :: _ => fun _ h2 => by simp [charsLe] at h2
  | _ :: _, [] => fun h1 _ => by simp [charsLe] at h1
  | x :: xs, y :: ys => fun h1 h2 => by
    by_cases hxy : x.toNat < y.toNat
    · have hny : ¬ y.toNat < x.toNat := Nat.lt_asymm hxy
      simp [charsLe, hxy, hny] at h2
    · by_cases hyx : y.toNat < x.toNat
      · simp [charsLe, hxy, hyx] at h1
      · have hn : x.toNat = y.toNat := Nat.le_antisymm (Nat.not_lt.mp hyx) (Nat.not_lt.mp hxy)
        have hx : x = y := Char.eq_of_val_eq (UInt32.eq_of_toBitVec_eq (BitVec.eq_of_toNat_eq hn))
        subst hx
        have h1' : charsLe xs ys = true := by simpa [charsLe, hxy, hyx] using h1
        have h2' : charsLe ys xs = true := by simpa [charsLe, hxy, hyx] using h2
        rw [charsLe_antisymm xs ys h1' h2']

theorem charsLe_trans : ∀ xs ys zs : List Char,
    charsLe xs ys = true → charsLe ys zs = true → charsLe xs zs = true
  | [], _, _ => fun _ _ => rfl
  | _ :: _, [], _ => fun h1 _ => by simp [charsLe] at h1
  | _ :: _, _ :: _, [] => fun _ h2 => by simp [charsLe] at h2
  | x :: xs, y :: ys, z :: zs => fun h1 h2 => by
    by_cases hxy : x.toNat < y.toNat
    · by_cases hyz : y.toNat < z.toNat
      · simp [charsLe, show x.toNat < z.toNat from Nat.lt_trans hxy hyz]
      · by_cases hzy : z.toNat < y.toNat
        · simp [charsLe, hyz, hzy] at h2
        · have : y.toNat = z.toNat := Nat.le_antisymm (Nat.not_lt.mp hzy) (Nat.not_lt.mp hyz)
          simp [charsLe, show x.toNat < z.toNat from this ▸ hxy]
    · by_cases hyx : y.toNat < x.toNat
      · simp [charsLe, hxy, hyx] at h1
      · have hxy' : x.toNat = y.toNat := Nat.le_antisymm (Nat.not_lt.mp hyx) (Nat.not_lt.mp hxy)
        by_cases hyz : y.toNat < z.toNat
        · simp [charsLe, show x.toNat < z.toNat from hxy' ▸ hyz]
        · by_cases hzy : z.toNat < y.toNat
          · simp [charsLe, hyz, hzy] at h2
          · have h1' : charsLe xs ys = true := by simpa [charsLe, hxy, hyx] using h1
            have h2' : charsLe ys zs = true := by simpa [charsLe, hyz, hzy] using h2
            have hyz' : y.toNat = z.toNat := Nat.le_antisymm (Nat.not_lt.mp hzy) (Nat.not_lt.mp hyz)
            have hxz : ¬ x.toNat < z.toNat := by omega
            have hzx : ¬ z.toNat < x.toNat := by omega
            simp [charsLe, hxz, hzx, charsLe_trans xs ys zs h1' h2']

instance : IsTotal String strLeR := ⟨fun a b => charsLe_total a.data b.data⟩

instance : IsTrans String strLeR := ⟨fun a b c => charsLe_trans a.data b.data c.data⟩

instance : IsAntisymm String strLeR :=
  ⟨fun a b h1 h2 => by
    cases a; cases b
    exact congrArg String.mk (charsLe_antisymm _ _ h1 h2)⟩

/-! ## sortDedup: Python `sorted(set(...))` -/

theorem sortDedup_perm_inv {l₁ l₂ : List String} (h : l₁.Perm l₂) :
    sortDedup l₁ = sortDedup l₂ := by
  unfold sortDedup
  have hp : (l₁.insertionSort strLeR).Perm (l₂.insertionSort strLeR) :=
    (List.perm_insertionSort strLeR l₁).trans
      (h.trans (List.perm_insertionSort strLeR l₂).symm)
  rw [List.eq_of_perm_of_sorted hp
    (List.sorted_insertionSort strLeR l₁) (List.sorted_insertionSort strLeR l₂)]

theorem mem_sortDedup {a : String} {l : List String} : a ∈ sortDedup l ↔ a ∈ l := by
  unfold sortDedup
  rw [List.mem_dedup]
  exact (List.perm_insertionSort strLeR l).mem_iff

theorem sortDedup_eq_nil_iff {l : List String} : sortDedup l = [] ↔ l = [] := by
  unfold sortDedup
  rw [List.dedup_eq_nil]
  constructor
  · intro h
    have hp := List.perm_insertionSort strLeR l
    rw [h] at hp
    exact hp.symm.eq_nil
  · intro h
    subst h
    rfl

/-! ## Association-list dict operations -/

theorem lookupA_dinsert {α : Type} (m : List (String × α)) (k k' : String) (v : α) :
    lookupA (dinsert m k v) k' = if k = k' then some v else lookupA m k' := by
  induction m with
  | nil => simp [dinsert, lookupA]
  | cons p m ih =>
    by_cases h : p.1 = k
    · rw [dinsert, if_pos h, lookupA]
      by_cases hk : k = k'
      · simp [hk]
      · simp only [if_neg hk, lookupA]
        rw [if_neg (by rw [h]; exact hk)]
    · rw [dinsert, if_neg h, lookupA, ih]
      by_cases hp : p.1 = k'
      · rw [if_pos hp, if_neg (by rw [← hp]; exact fun he => h he.symm), lookupA, if_pos hp]
      · rw [if_neg hp]
        by_cases hk : k = k'
        · simp [hk]
        · simp [hk, lookupA, hp]

theorem mem_keys_dinsert {α : Type} (m : List (String × α)) (k : String) (v : α) (a : String) :
    a ∈ (dinsert m k v).map Prod.fst ↔ a = k ∨ a ∈ m.map Prod.fst := by
  induction m with
  | nil => simp [dinsert]
  | cons p m ih =>
    by_cases h : p.1 = k
    · rw [dinsert, if_pos h, List.map_cons, List.map_cons, List.mem_cons, List.mem_cons]
      constructor
      · rintro (rfl | hm)
        · exact Or.inl rfl
        · exact Or.inr (Or.inr hm)
      · rintro (rfl | rfl | hm)
        · exact Or.inl rfl
        · exact Or.inl h
        · exact Or.inr hm
    · rw [dinsert, if_neg h, List.map_cons, List.map_cons, List.mem_cons, List.mem_cons, ih]
      constructor
      · rintro (rfl | rfl | hm)
        · exact Or.inr (Or.inl rfl)
        · exact Or.inl rfl
        · exact Or.inr (Or.inr hm)
      · rintro (rfl | rfl | hm)
        · exact Or.inr (Or.inl rfl)
        · exact Or.inl rfl
        · exact Or.inr (Or.inr hm)

theorem nodupKeys_dinsert {α : Type} (m : List (String × α)) (k : String) (v : α)
    (h : (m.map Prod.fst).Nodup) : ((dinsert m k v).map Prod.fst).Nodup := by
  induction m with
  | nil => simp [dinsert]
  | cons p m ih =>
    rw [List.map_cons, List.nodup_cons] at h
    by_cases hp : p.1 = k
    · rw [dinsert, if_pos hp, List.map_cons, List.nodup_cons]
      exact ⟨by rw [← hp]; exact h.1, h.2⟩
    · rw [dinsert, if_neg hp, List.map_cons, List.nodup_cons]
      refine ⟨?_, ih h.2⟩
      rw [mem_keys_dinsert]
      rintro (he | hm)
      · exact hp he
      · exact h.1 hm

theorem lookupA_isSome_iff {α : Type} (m : List (String × α)) (k : String) :
    (lookupA m k).isSome = true ↔ k ∈ m.map Prod.fst := by
  induction m with
  | nil => simp [lookupA]
  | cons p m ih =>
    rw [lookupA, List.map_cons, List.mem_cons]
    by_cases h : p.1 = k
    · simp [h]
    · rw [if_neg h, ih]
      constructor
      · exact Or.inr
      · rintro (rfl | hm)
        · exact absurd rfl h
        · exact hm

theorem lookupA_eq_none_iff {α : Type} (m : List (String × α)) (k : String) :
    lookupA m k = none ↔ k ∉ m.map Prod.fst := by
  rw [← lookupA_isSome_iff]
  cases lookupA m k <;> simp

theorem lookupA_mem_of_eq_some {α : Type} {m : List (String × α)} {k : String} {v : α}
    (h : lookupA m k = some v) : (k, v) ∈ m := by
  induction m with
  | nil => simp [lookupA] at h
  | cons p m ih =>
    rw [lookupA] at h
    by_cases hp : p.1 = k
    · rw [if_pos hp] at h
      obtain ⟨a, b⟩ := p
      dsimp at hp
      subst hp
      have hv := Option.some.inj h
      subst hv
      exact List.mem_cons_self _ _
    · rw [if_neg hp] at h
      exact List.mem_cons_of_mem _ (ih h)

theorem lookupA_eq_some_of_mem_nodup {α : Type} {m : List (String × α)} {k : String} {v : α}
    (hm : (m.map Prod.fst).Nodup) (h : (k, v) ∈ m) : lookupA m k = some v := by
  induction m with
  | nil => simp at h
  | cons p m ih =>
    rw [List.map_cons, List.nodup_cons] at hm
    rcases List.mem_cons.mp h with rfl | hmem
    · simp [lookupA]
    · rw [lookupA]
      have hk : k ∈ m.map Prod.fst := List.mem_map.mpr ⟨(k, v), hmem, rfl⟩
      rw [if_neg (fun he => hm.1 (by rw [he]; exact hk))]
      exact ih hm.2 hmem

theorem lookupA_perm {α : Type} {m m' : List (String × α)} (hm : (m.map Prod.fst).Nodup)
    (hp : m.Perm m') (k : String) : lookupA m k = lookupA m' k := by
  have hm' : (m'.map Prod.fst).Nodup := ((hp.map Prod.fst).nodup_iff).mp hm
  cases h : lookupA m k with
  | some v =>
    exact (lookupA_eq_some_of_mem_nodup hm' (hp.mem_iff.mp (lookupA_mem_of_eq_some h))).symm
  | none =>
    rw [lookupA_eq_none_iff] at h
    rw [eq_comm, lookupA_eq_none_iff]
    exact fun hk => h ((hp.map Prod.fst).mem_iff.mpr hk)

/-! ## Characterizing Python dict equality -/

theorem dictEq_true_iff {α : Type} [DecidableEq α] {a b : List (String × α)}
    (ha : (a.map Prod.fst).Nodup) (hb : (b.map Prod.fst).Nodup) :
    dictEq a b = true ↔ ∀ k, lookupA a k = lookupA b k := by
  constructor
  · intro h k
    rw [dictEq, Bool.and_eq_true, List.all_eq_true] at h
    obtain ⟨hlen, hall⟩ := h
    have hlen' : a.length = b.length := by simpa using hlen
    cases hk : lookupA a k with
    | some v =>
      have hmem : (k, v) ∈ a := lookupA_mem_of_eq_some hk
      have hv := hall _ hmem
      cases hb2 : lookupA b k with
      | some w =>
        rw [hb2] at hv
        simp only [decide_eq_true_eq] at hv
        rw [hv]
      | none => rw [hb2] at hv; simp at hv
    | none =>
      cases hb2 : lookupA b k with
      | none => rfl
      | some w =>
        exfalso
        have hsub : a.map Prod.fst ⊆ b.map Prod.fst := by
          intro x hx
          obtain ⟨p, hp, rfl⟩ := List.mem_map.mp hx
          have hv := hall _ hp
          cases hpb : lookupA b p.1 with
          | some w' => exact (lookupA_isSome_iff b p.1).mp (by rw [hpb]; rfl)
          | none => rw [hpb] at hv; simp at hv
        have hsp : (a.map Prod.fst).Subperm (b.map Prod.fst) :=
          List.subperm_of_subset ha hsub
        have hperm : (a.map Prod.fst).Perm (b.map Prod.fst) :=
          hsp.perm_of_length_le (by simp [hlen'])
        have hkb : k ∈ b.map Prod.fst := (lookupA_isSome_iff b k).mp (by rw [hb2]; rfl)
        have hka : k ∈ a.map Prod.fst := hperm.mem_iff.mpr hkb
        exact ((lookupA_eq_none_iff a k).mp hk) hka
  · intro h
    rw [dictEq, Bool.and_eq_true, List.all_eq_true]
    constructor
    · have hperm : (a.map Prod.fst).Perm (b.map Prod.fst) := by
        rw [List.perm_ext_iff_of_nodup ha hb]
        intro k
        rw [← lookupA_isSome_iff, ← lookupA_isSome_iff, h k]
      have := hperm.length_eq
      simp only [List.length_map] at this
      simpa using this
    · intro p hp
      have hpa : lookupA a p.1 = some p.2 :=
        lookupA_eq_some_of_mem_nodup ha (by rw [← Prod.mk.eta (p := p)] at hp; exact hp)
      rw [← h p.1, hpa]
      simp

theorem dictEq_of_lookup_eq {α : Type} [DecidableEq α] {a b : List (String × α)}
    (ha : (a.map Prod.fst).Nodup) (hb : (b.map Prod.fst).Nodup)
    (h : ∀ k, lookupA a k = lookupA b k) : dictEq a b = true :=
  (dictEq_true_iff ha hb).mpr h

theorem specStructEq_true_iff {a b : Snapshot}
    (ha : (a.map Prod.fst).Nodup) (hb : (b.map Prod.fst).Nodup) :
    specStructEq a b = true ↔ ∀ k, lookupA a k = lookupA b k := by
  rw [specStructEq, Bool.and_eq_true, Bool.and_eq_true,
    List.all_eq_true, List.all_eq_true, List.all_eq_true]
  constructor
  · rintro ⟨⟨hab, hba⟩, hshared⟩ k
    cases hk : lookupA a k with
    | some v =>
      have hmem : (k, v) ∈ a := lookupA_mem_of_eq_some hk
      have h1 := hshared _ hmem
      cases hb2 : lookupA b k with
      | some w =>
        rw [hb2] at h1
        simp only [decide_eq_true_eq] at h1
        rw [h1]
      | none =>
        exfalso
        have := hab _ hmem
        rw [hb2] at this
        simp at this
    | none =>
      cases hb2 : lookupA b k with
      | none => rfl
      | some w =>
        exfalso
        have hmem : (k, w) ∈ b := lookupA_mem_of_eq_some hb2
        have := hba _ hmem
        have hka : k ∈ a.map Prod.fst := (lookupA_isSome_iff a k).mp this
        exact ((lookupA_eq_none_iff a k).mp hk) hka
  · intro h
    refine ⟨⟨?_, ?_⟩, ?_⟩
    · intro p hp
      have hpa : lookupA a p.1 = some p.2 :=
        lookupA_eq_some_of_mem_nodup ha (by rw [← Prod.mk.eta (p := p)] at hp; exact hp)
      rw [← h p.1, hpa]
      rfl
    · intro p hp
      have hpb : lookupA b p.1 = some p.2 :=
        lookupA_eq_some_of_mem_nodup hb (by rw [← Prod.mk.eta (p := p)] at hp; exact hp)
      rw [h p.1, hpb]
      rfl
    · intro p hp
      have hpa : lookupA a p.1 = some p.2 :=
        lookupA_eq_some_of_mem_nodup ha (by rw [← Prod.mk.eta (p := p)] at hp; exact hp)
      rw [← h p.1, hpa]
      simp

/-- C3: `has_changes(s1, s2)` is true exactly when the two snapshots are not
structurally equal (same key sets and same status/size content per shared
key); key order never affects the result, `has_changes(s, s)` is false, and
the comparison is symmetric. -/
theorem has_changes_spec (s1 s2 t1 t2 : Snapshot)
    (h1 : (s1.map Prod.fst).Nodup) (h2 : (s2.map Prod.fst).Nodup)
    (hp1 : s1.Perm t1) (hp2 : s2.Perm t2) :
    hasChanges s1 s2 = !(specStructEq s1 s2) ∧
    hasChanges s1 s1 = false ∧
    hasChanges s1 s2 = hasChanges s2 s1 ∧
    hasChanges t1 t2 = hasChanges s1 s2 := by
  have h1' : (t1.map Prod.fst).Nodup := ((hp1.map Prod.fst).nodup_iff).mp h1
  have h2' : (t2.map Prod.fst).Nodup := ((hp2.map Prod.fst).nodup_iff).mp h2
  refine ⟨?_, ?_, ?_, ?_⟩
  · have e1 : dictEq s1 s2 = specStructEq s1 s2 :=
      Bool.eq_iff_iff.mpr ((dictEq_true_iff h1 h2).trans (specStructEq_true_iff h1 h2).symm)
    rw [hasChanges, e1]
  · have : dictEq s1 s1 = true := dictEq_of_lookup_eq h1 h1 (fun _ => rfl)
    rw [hasChanges, this]
    rfl
  · have e2 : dictEq s1 s2 = dictEq s2 s1 := by
      refine Bool.eq_iff_iff.mpr ((dictEq_true_iff h1 h2).trans
        (Iff.trans ?_ (dictEq_true_iff h2 h1).symm))
      constructor
      · intro h k
        exact (h k).symm
      · intro h k
        exact (h k).symm
    rw [hasChanges, hasChanges, e2]
  · have e3 : dictEq t1 t2 = dictEq s1 s2 := by
      refine Bool.eq_iff_iff.mpr ((dictEq_true_iff h1' h2').trans
        (Iff.trans ?_ (dictEq_true_iff h1 h2).symm))
      constructor
      · intro h k
        rw [lookupA_perm h1 hp1 k, lookupA_perm h2 hp2 k]
        exact h k
      · intro h k
        rw [← lookupA_perm h1 hp1 k, ← lookupA_perm h2 hp2 k]
        exact h k
    rw [hasChanges, hasChanges, e3]

/-- Witness for C3 at concrete snapshots with permuted key orders. -/
theorem has_changes_spec_witness :
    hasChanges [("a", (⟨Status.part, ["S"], ["M"]⟩ : SEntry)), ("b", ⟨Status.full_oos, [], ["L"]⟩)]
        [("a", ⟨Status.part, ["S"], ["M"]⟩)] =
      !(specStructEq
        [("a", ⟨Status.part, ["S"], ["M"]⟩), ("b", ⟨Status.full_oos, [], ["L"]⟩)]
        [("a", ⟨Status.part, ["S"], ["M"]⟩)]) ∧
    hasChanges [("a", (⟨Status.part, ["S"], ["M"]⟩ : SEntry)), ("b", ⟨Status.full_oos, [], ["L"]⟩)]
        [("a", ⟨Status.part, ["S"], ["M"]⟩), ("b", ⟨Status.full_oos, [], ["L"]⟩)] = false ∧
    hasChanges [("a", (⟨Status.part, ["S"], ["M"]⟩ : SEntry)), ("b", ⟨Status.full_oos, [], ["L"]⟩)]
        [("a", ⟨Status.part, ["S"], ["M"]⟩)] =
      hasChanges [("a", ⟨Status.part, ["S"], ["M"]⟩)]
        [("a", ⟨Status.part, ["S"], ["M"]⟩), ("b", ⟨Status.full_oos, [], ["L"]⟩)] ∧
    hasChanges [("b", (⟨Status.full_oos, [], ["L"]⟩ : SEntry)), ("a", ⟨Status.part, ["S"], ["M"]⟩)]
        [("a", ⟨Status.part, ["S"], ["M"]⟩)] =
      hasChanges [("a", ⟨Status.part, ["S"], ["M"]⟩), ("b", ⟨Status.full_oos, [], ["L"]⟩)]
        [("a", ⟨Status.part, ["S"], ["M"]⟩)] :=
  has_changes_spec
    [("a", ⟨Status.part, ["S"], ["M"]⟩), ("b", ⟨Status.full_oos, [], ["L"]⟩)]
    [("a", ⟨Status.part, ["S"], ["M"]⟩)]
    [("b", ⟨Status.full_oos, [], ["L"]⟩), ("a", ⟨Status.part, ["S"], ["M"]⟩)]
    [("a", ⟨Status.part, ["S"], ["M"]⟩)]
    (by decide) (by decide) (by decide) (by decide)

/-! ## Snapshot persistence round trip -/

theorem statusOfString_statusStr (b : Status) : statusOfString (statusStr b) = some b := by
  cases b <;> simp [statusStr, statusOfString]

theorem decodeStrs_map (l : List String) : decodeStrs (l.map Json.str) = some l := by
  induction l with
  | nil => rfl
  | cons x xs ih => simp [decodeStrs, ih]

theorem decodeEntry_encodeEntry (e : SEntry) : decodeEntry (encodeEntry e) = some e := by
  obtain ⟨b, av, un⟩ := e
  simp [encodeEntry, decodeEntry, lookupA, statusOfString_statusStr, decodeStrs_map]

theorem decodeEntries_encode (s : Snapshot) :
    decodeEntries (s.map fun p => (p.1, encodeEntry p.2)) = some s := by
  induction s with
  | nil => rfl
  | cons p rest ih => simp [decodeEntries, decodeEntry_encodeEntry, ih]

theorem load_save (s : Snapshot) :
    loadPreviousState (saveCurrentState s) = encodeSnapshot s := by
  simp [saveCurrentState, loadPreviousState, lookupA]

/-- C6: saving a snapshot and loading it back yields a structurally equal
snapshot, and a missing or unreadable/corrupt state file loads as the empty
mapping rather than raising. -/
theorem state_roundtrip :
    (∀ s : Snapshot, decodeSnapshot (loadPreviousState (saveCurrentState s)) = some s) ∧
    loadPreviousState FileState.missing = Json.obj [] ∧
    loadPreviousState FileState.corrupt = Json.obj [] := by
  refine ⟨?_, rfl, rfl⟩
  intro s
  rw [load_save]
  simp [encodeSnapshot, decodeSnapshot, decodeEntries_encode]

/-! ## Classification law -/

theorem sizedCount_zero_iff (p : Product) :
    sizedCount p = 0 ↔ availList p = [] ∧ unavailList p = [] := by
  rw [sizedCount, availList, unavailList]
  induction p.variants with
  | nil => simp
  | cons v vs ih =>
    cases hrs : resolvedSize v with
    | none => simpa [List.filterMap_cons, hrs] using ih
    | some s =>
      cases hta : truthyAvail v with
      | true => simp [List.filterMap_cons, hrs, hta]
      | false => simp [List.filterMap_cons, hrs, hta]

/-- C1: for a product with a truthy handle, membership of its URL in each of
the three buckets of the report built from it is exactly the advertised
function of the two deduplicated size sets, and a product with no size
information at all appears in no bucket. -/
theorem classification_law (p : Product) (hh : truthyStr p.handle = true) :
    ((lookupA (buildReport [p]).part (purl p)).isSome = true ↔
      sortDedup (availList p) ≠ [] ∧ sortDedup (unavailList p) ≠ []) ∧
    ((lookupA (buildReport [p]).full_in_stock (purl p)).isSome = true ↔
      sortDedup (availList p) ≠ [] ∧ sortDedup (unavailList p) = []) ∧
    ((lookupA (buildReport [p]).full_oos (purl p)).isSome = true ↔
      sortDedup (availList p) = [] ∧ sortDedup (unavailList p) ≠ []) ∧
    (sortDedup (availList p) = [] ∧ sortDedup (unavailList p) = [] →
      ∀ b url, lookupA (bucketOf (buildReport [p]) b) url = none) := by
  have hbr : buildReport [p] = buildStep emptyReport p := by
    simp [buildReport]
  by_cases hz : sizedCount p = 0
  · have hav : availList p = [] := ((sizedCount_zero_iff p).mp hz).1
    have hun : unavailList p = [] := ((sizedCount_zero_iff p).mp hz).2
    have hcl : classifyProduct p = none := by
      rw [classifyProduct, if_pos hh]
      simp [hz]
    have hrep : buildReport [p] = emptyReport := by
      rw [hbr, buildStep, hcl]
    rw [hrep]
    refine ⟨?_, ?_, ?_, ?_⟩
    · simp [emptyReport, lookupA, hav, sortDedup_eq_nil_iff]
    · simp [emptyReport, lookupA, hav, sortDedup_eq_nil_iff]
    · simp [emptyReport, lookupA, hun, sortDedup_eq_nil_iff]
    · intro _ b url
      cases b <;> rfl
  · have hne : ¬ (availList p = [] ∧ unavailList p = []) :=
      fun h => hz ((sizedCount_zero_iff p).mpr h)
    by_cases hA : sortDedup (availList p) ≠ [] ∧ sortDedup (unavailList p) ≠ []
    · have hcl : classifyProduct p =
          some (purl p, Status.part, ⟨pTitle p, sortDedup (availList p), sortDedup (unavailList p)⟩) := by
        rw [classifyProduct, if_pos hh]
        simp [hz, hA]
      have hrep : buildReport [p] =
          { emptyReport with part := [(purl p, ⟨pTitle p, sortDedup (availList p), sortDedup (unavailList p)⟩)] } := by
        simp [hbr, buildStep, hcl, insertReport, dinsert]
      rw [hrep]
      refine ⟨?_, ?_, ?_, ?_⟩
      · simp [lookupA, hA]
      · simp [emptyReport, lookupA, hA.2]
      · simp [emptyReport, lookupA, hA.1]
      · rintro ⟨ha, _⟩
        exact absurd ha hA.1
    · by_cases hB : sortDedup (availList p) ≠ [] ∧ sortDedup (unavailList p) = []
      · have hcl : classifyProduct p =
            some (purl p, Status.full_in_stock, ⟨pTitle p, sortDedup (availList p), []⟩) := by
          rw [classifyProduct, if_pos hh]
          simp [hz, hA, hB]
        have hrep : buildReport [p] =
            { emptyReport with full_in_stock := [(purl p, ⟨pTitle p, sortDedup (availList p), []⟩)] } := by
          simp [hbr, buildStep, hcl, insertReport, dinsert]
        rw [hrep]
        refine ⟨?_, ?_, ?_, ?_⟩
        · simp [emptyReport, lookupA, hB.2]
        · simp [lookupA, hB]
        · simp [emptyReport, lookupA, hB.1]
        · rintro ⟨ha, _⟩
          exact absurd ha hB.1
      · by_cases hC : sortDedup (unavailList p) ≠ [] ∧ sortDedup (availList p) = []
        · have hcl : classifyProduct p =
              some (purl p, Status.full_oos, ⟨pTitle p, [], sortDedup (unavailList p)⟩) := by
            rw [classifyProduct, if_pos hh]
            simp [hz, hA, hB, hC]
          have hrep : buildReport [p] =
              { emptyReport with full_oos := [(purl p, ⟨pTitle p, [], sortDedup (unavailList p)⟩)] } := by
            simp [hbr, buildStep, hcl, insertReport, dinsert]
          rw [hrep]
          refine ⟨?_, ?_, ?_, ?_⟩
          · simp [emptyReport, lookupA, hC.2]
          · simp [emptyReport, lookupA, hC.1]
          · simp [lookupA, hC]
          · rintro ⟨_, hu⟩
            exact absurd hu hC.1
        · exfalso
          rcases Decidable.em (sortDedup (availList p) = []) with ha | ha
          · rcases Decidable.em (sortDedup (unavailList p) = []) with hu | hu
            · exact hne ⟨sortDedup_eq_nil_iff.mp ha, sortDedup_eq_nil_iff.mp hu⟩
            · exact hC ⟨hu, ha⟩
          · rcases Decidable.em (sortDedup (unavailList p) = []) with hu | hu
            · exact hB ⟨ha, hu⟩
            · exact hA ⟨ha, hu⟩

/-- Witness for C1 on a two-variant product with one size in stock and one
sold out. -/
theorem classification_law_witness :
    truthyStr (Product.mk (some "Bowl") (some "bowl")
      [⟨some "S", none, none⟩, ⟨some "M", none, some (some false)⟩]).handle = true ∧
    ((lookupA (buildReport [Product.mk (some "Bowl") (some "bowl")
        [⟨some "S", none, none⟩, ⟨some "M", none, some (some false)⟩]]).part
      (purl (Product.mk (some "Bowl") (some "bowl")
        [⟨some "S", none, none⟩, ⟨some "M", none, some (some false)⟩]))).isSome = true ↔
      sortDedup (availList (Product.mk (some "Bowl") (some "bowl")
        [⟨some "S", none, none⟩, ⟨some "M", none, some (some false)⟩])) ≠ [] ∧
      sortDedup (unavailList (Product.mk (some "Bowl") (some "bowl")
        [⟨some "S", none, none⟩, ⟨some "M", none, some (some false)⟩])) ≠ []) := by
  refine ⟨by decide, ?_⟩
  exact (classification_law (Product.mk (some "Bowl") (some "bowl")
    [⟨some "S", none, none⟩, ⟨some "M", none, some (some false)⟩]) (by decide)).1

/-! ## Variant availability semantics -/

theorem mem_availList_of_variant {p : Product} {v : Variant} {s : String}
    (hv : v ∈ p.variants) (hs : resolvedSize v = some s) (ht : truthyAvail v = true) :
    s ∈ availList p := by
  rw [availList, List.mem_filterMap]
  exact ⟨v, hv, by simp [hs, ht]⟩

theorem mem_unavailList_of_variant {p : Product} {v : Variant} {s : String}
    (hv : v ∈ p.variants) (hs : resolvedSize v = some s) (ht : truthyAvail v = false) :
    s ∈ unavailList p := by
  rw [unavailList, List.mem_filterMap]
  exact ⟨v, hv, by simp [hs, ht]⟩

/-- C10: the `available = True` default fires only when the key is absent; a
variant carrying an explicit null is counted as unavailable, so its size
label lands in the unavailable list, not the available one. -/
theorem null_available_is_unavailable (p : Product) (v : Variant) (s : String)
    (hv : v ∈ p.variants) (hs : resolvedSize v = some s) :
    (v.available = none → truthyAvail v = true ∧ s ∈ availList p) ∧
    (v.available = some none → truthyAvail v = false ∧ s ∈ unavailList p) := by
  constructor
  · intro ha
    have ht : truthyAvail v = true := by rw [truthyAvail, ha]
    exact ⟨ht, mem_availList_of_variant hv hs ht⟩
  · intro ha
    have ht : truthyAvail v = false := by rw [truthyAvail, ha]
    exact ⟨ht, mem_unavailList_of_variant hv hs ht⟩

/-- Witness for C10: a null `available` puts the size into the unavailable
list; an absent key defaults to available. -/
theorem null_available_is_unavailable_witness :
    ((⟨some "S", none, some none⟩ : Variant).available = none →
      truthyAvail ⟨some "S", none, some none⟩ = true ∧
      "S" ∈ availList (Product.mk (some "T") (some "h") [⟨some "S", none, some none⟩])) ∧
    ((⟨some "S", none, some none⟩ : Variant).available = some none →
      truthyAvail ⟨some "S", none, some none⟩ = false ∧
      "S" ∈ unavailList (Product.mk (some "T") (some "h") [⟨some "S", none, some none⟩])) :=
  null_available_is_unavailable
    (Product.mk (some "T") (some "h") [⟨some "S", none, some none⟩])
    ⟨some "S", none, some none⟩ "S" (by decide) (by decide)

/-- C9: a size label carried once by an available variant and once by an
unavailable variant of the same product appears in both size sets, and the
product is classified into the `"partial"` bucket. -/
theorem conflicting_size_in_both_sets (p : Product) (s : String)
    (hh : truthyStr p.handle = true)
    (ha : ∃ v ∈ p.variants, resolvedSize v = some s ∧ truthyAvail v = true)
    (hu : ∃ v ∈ p.variants, resolvedSize v = some s ∧ truthyAvail v = false) :
    ∃ e, classifyProduct p = some (purl p, Status.part, e) ∧
      s ∈ e.available_sizes ∧ s ∈ e.unavailable_sizes := by
  obtain ⟨va, hva, hsa, hta⟩ := ha
  obtain ⟨vu, hvu, hsu, htu⟩ := hu
  have hma : s ∈ availList p := mem_availList_of_variant hva hsa hta
  have hmu : s ∈ unavailList p := mem_unavailList_of_variant hvu hsu htu
  have hA : sortDedup (availList p) ≠ [] := by
    intro h
    rw [sortDedup_eq_nil_iff] at h
    rw [h] at hma
    exact absurd hma (List.not_mem_nil s)
  have hU : sortDedup (unavailList p) ≠ [] := by
    intro h
    rw [sortDedup_eq_nil_iff] at h
    rw [h] at hmu
    exact absurd hmu (List.not_mem_nil s)
  have hz : ¬ sizedCount p = 0 := by
    intro h
    have := ((sizedCount_zero_iff p).mp h).1
    rw [this] at hma
    exact absurd hma (List.not_mem_nil s)
  refine ⟨⟨pTitle p, sortDedup (availList p), sortDedup (unavailList p)⟩, ?_, ?_, ?_⟩
  · rw [classifyProduct, if_pos hh]
    simp [hz, hA, hU]
  · exact mem_sortDedup.mpr hma
  · exact mem_sortDedup.mpr hmu

/-- Witness for C9: a product whose only two variants carry the same size
label, once available and once not. -/
theorem conflicting_size_in_both_sets_witness :
    ∃ e, classifyProduct (Product.mk (some "T") (some "h")
        [⟨some "S", none, none⟩, ⟨some "S", none, some (some false)⟩]) =
      some (purl (Product.mk (some "T") (some "h")
        [⟨some "S", none, none⟩, ⟨some "S", none, some (some false)⟩]), Status.part, e) ∧
      "S" ∈ e.available_sizes ∧ "S" ∈ e.unavailable_sizes :=
  conflicting_size_in_both_sets
    (Product.mk (some "T") (some "h")
      [⟨some "S", none, none⟩, ⟨some "S", none, some (some false)⟩])
    "S" (by decide)
    ⟨⟨some "S", none, none⟩, by decide, by decide, by decide⟩
    ⟨⟨some "S", none, some (some false)⟩, by decide, by decide, by decide⟩

/-! ## Lookup structure of the report builder -/

theorem lookupA_insertReport (r : Report) (c : String × Status × REntry) (b : Status)
    (url : String) :
    lookupA (bucketOf (insertReport r c) b) url =
      if c.2.1 = b ∧ c.1 = url then some c.2.2 else lookupA (bucketOf r b) url := by
  obtain ⟨u, st, e⟩ := c
  cases st <;> cases b <;>
    simp [insertReport, bucketOf, lookupA_dinsert]

theorem lookupA_foldl_buildStep : ∀ (ps : List Product) (r : Report) (b : Status) (url : String),
    lookupA (bucketOf (ps.foldl buildStep r) b) url =
      match contribLast (contribs ps) b url with
      | some e => some e
      | none => lookupA (bucketOf r b) url
  | [], r, b, url => rfl
  | p :: ps, r, b, url => by
    rw [List.foldl_cons, lookupA_foldl_buildStep ps (buildStep r p) b url]
    cases hc : classifyProduct p with
    | none =>
      have hcs : contribs (p :: ps) = contribs ps := by
        simp [contribs, List.filterMap_cons, hc]
      have hb : buildStep r p = r := by simp [buildStep, hc]
      rw [hcs, hb]
    | some c =>
      have hcs : contribs (p :: ps) = c :: contribs ps := by
        simp [contribs, List.filterMap_cons, hc]
      have hb : buildStep r p = insertReport r c := by simp [buildStep, hc]
      rw [hcs, contribLast, hb]
      cases hl : contribLast (contribs ps) b url with
      | some e => simp
      | none =>
        rw [lookupA_insertReport]
        by_cases hcond : c.2.1 = b ∧ c.1 = url <;> simp [hcond]

theorem lookupA_buildReport (ps : List Product) (b : Status) (url : String) :
    lookupA (bucketOf (buildReport ps) b) url = contribLast (contribs ps) b url := by
  have h := lookupA_foldl_buildStep ps emptyReport b url
  rw [buildReport] at *
  cases hl : contribLast (contribs ps) b url with
  | some e => rw [h, hl]
  | none =>
    rw [h, hl]
    cases b <;> rfl

theorem contribLast_eq_none_of_not_mem :
    ∀ (l : List (String × Status × REntry)) (b : Status) (url : String),
    url ∉ l.map (fun c => c.1) → contribLast l b url = none
  | [], _, _, _ => rfl
  | c :: cs, b, url, h => by
    rw [List.map_cons, List.mem_cons] at h
    push_neg at h
    rw [contribLast, contribLast_eq_none_of_not_mem cs b url h.2]
    rw [if_neg (fun hx => h.1 hx.2.symm)]

theorem contribLast_mem_of_eq_some :
    ∀ {l : List (String × Status × REntry)} {b : Status} {url : String} {e : REntry},
    contribLast l b url = some e → (url, b, e) ∈ l := by
  intro l
  induction l with
  | nil => intro b url e h; simp [contribLast] at h
  | cons c cs ih =>
    intro b url e h
    rw [contribLast] at h
    cases hl : contribLast cs b url with
    | some e' =>
      rw [hl] at h
      exact List.mem_cons_of_mem _ (ih (hl.trans h))
    | none =>
      rw [hl] at h
      by_cases hcond : c.2.1 = b ∧ c.1 = url
      · rw [if_pos hcond] at h
        obtain ⟨u, st, d⟩ := c
        obtain ⟨h1, h2⟩ := hcond
        dsimp at h1 h2 h
        rw [h1, h2, Option.some.inj h]
        exact List.mem_cons_self _ _
      · rw [if_neg hcond] at h
        exact absurd h (by simp)

theorem contribLast_eq_some_of_mem {l : List (String × Status × REntry)} {b : Status}
    {url : String} {e : REntry} (hnd : (l.map (fun c => c.1)).Nodup)
    (h : (url, b, e) ∈ l) : contribLast l b url = some e := by
  induction l with
  | nil => simp at h
  | cons c cs ih =>
    rw [List.map_cons, List.nodup_cons] at hnd
    rcases List.mem_cons.mp h with rfl | hmem
    · rw [contribLast,
        contribLast_eq_none_of_not_mem cs b url hnd.1, if_pos ⟨rfl, rfl⟩]
    · rw [contribLast, ih hnd.2 hmem]

theorem contribLast_perm_unique {l l' : List (String × Status × REntry)}
    (hnd : (l.map (fun c => c.1)).Nodup) (hp : l.Perm l') (b : Status) (url : String) :
    contribLast l b url = contribLast l' b url := by
  have hnd' : (l'.map (fun c => c.1)).Nodup := ((hp.map _).nodup_iff).mp hnd
  cases h : contribLast l b url with
  | some e =>
    exact (contribLast_eq_some_of_mem hnd'
      (hp.mem_iff.mp (contribLast_mem_of_eq_some h))).symm
  | none =>
    cases h' : contribLast l' b url with
    | none => rfl
    | some e =>
      have hmem := hp.mem_iff.mpr (contribLast_mem_of_eq_some h')
      have hsome := contribLast_eq_some_of_mem hnd hmem
      rw [h] at hsome
      exact Option.noConfusion hsome

theorem nodup_insertReport (r : Report) (c : String × Status × REntry) (b : Status)
    (h : ((bucketOf r b).map Prod.fst).Nodup) :
    ((bucketOf (insertReport r c) b).map Prod.fst).Nodup := by
  obtain ⟨u, st, e⟩ := c
  cases st <;> cases b <;>
    simp only [insertReport, bucketOf] <;>
    first
      | exact h
      | exact nodupKeys_dinsert _ _ _ h

theorem buildReport_keys_nodup_aux :
    ∀ (ps : List Product) (r : Report),
    (∀ b, ((bucketOf r b).map Prod.fst).Nodup) →
    ∀ b, ((bucketOf (ps.foldl buildStep r) b).map Prod.fst).Nodup
  | [], _, h => h
  | p :: ps, r, h => by
    rw [List.foldl_cons]
    refine buildReport_keys_nodup_aux ps (buildStep r p) ?_
    intro b
    cases hc : classifyProduct p with
    | none => simpa [buildStep, hc] using h b
    | some c =>
      have hb : buildStep r p = insertReport r c := by simp [buildStep, hc]
      rw [hb]
      exact nodup_insertReport r c b (h b)

theorem buildReport_keys_nodup (ps : List Product) (b : Status) :
    ((bucketOf (buildReport ps) b).map Prod.fst).Nodup := by
  rw [buildReport]
  exact buildReport_keys_nodup_aux ps emptyReport (fun b => by cases b <;> simp [bucketOf, emptyReport]) b

/-- C4 counterexample: two fetched products sharing handle `x`, one fully in
stock and one partially sold out, put the same product URL into two buckets
at once. -/
theorem url_in_two_buckets_cex :
    (lookupA (buildReport
        [Product.mk (some "A") (some "x") [⟨some "S", none, none⟩],
         Product.mk (some "B") (some "x")
           [⟨some "S", none, none⟩, ⟨some "M", none, some (some false)⟩]]).full_in_stock
      "https://cavaathleisure.com/products/x").isSome = true ∧
    (lookupA (buildReport
        [Product.mk (some "A") (some "x") [⟨some "S", none, none⟩],
         Product.mk (some "B") (some "x")
           [⟨some "S", none, none⟩, ⟨some "M", none, some (some false)⟩]]).part
      "https://cavaathleisure.com/products/x").isSome = true := by
  decide

/-- C4 amended: when no two classified products yield the same canonical
URL (in particular when handles are unique), a URL never sits in two buckets
of the built report at once, so every URL present appears in exactly one
bucket. -/
theorem bucket_exclusive_of_unique_urls (ps : List Product) (url : String) (b b' : Status)
    (hnd : ((contribs ps).map (fun c => c.1)).Nodup)
    (hb : (lookupA (bucketOf (buildReport ps) b) url).isSome = true)
    (hb' : (lookupA (bucketOf (buildReport ps) b') url).isSome = true) : b = b' := by
  rw [lookupA_buildReport] at hb hb'
  obtain ⟨e, he⟩ := Option.isSome_iff_exists.mp hb
  obtain ⟨e', he'⟩ := Option.isSome_iff_exists.mp hb'
  have hm : (url, b, e) ∈ contribs ps := contribLast_mem_of_eq_some he
  have hm' : (url, b', e') ∈ contribs ps := contribLast_mem_of_eq_some he'
  have := List.inj_on_of_nodup_map hnd hm hm' rfl
  exact congrArg (fun c => c.2.1) this

/-- Witness for C4 (amended) on a single-product list. -/
theorem bucket_exclusive_of_unique_urls_witness : Status.part = Status.part :=
  bucket_exclusive_of_unique_urls
    [Product.mk (some "Bowl") (some "bowl")
      [⟨some "S", none, none⟩, ⟨some "M", none, some (some false)⟩]]
    "https://cavaathleisure.com/products/bowl" Status.part Status.part
    (by decide) (by decide) (by decide)

/-! ## Reorder invariance of the classifier -/

theorem classify_variantReorder {p q : Product} (h : variantReorder p q) :
    classifyProduct p = classifyProduct q := by
  obtain ⟨ht, hhnd, hv⟩ := h
  have h1 : sortDedup (availList p) = sortDedup (availList q) := by
    rw [availList, availList]
    exact sortDedup_perm_inv (hv.filterMap _)
  have h2 : sortDedup (unavailList p) = sortDedup (unavailList q) := by
    rw [unavailList, unavailList]
    exact sortDedup_perm_inv (hv.filterMap _)
  have h3 : sizedCount p = sizedCount q := by
    rw [sizedCount, sizedCount]
    exact (hv.filterMap resolvedSize).length_eq
  have hpu : purl p = purl q := by rw [purl, purl, hhnd]
  have hpt : pTitle p = pTitle q := by rw [pTitle, pTitle, ht]
  have hth : truthyStr p.handle = truthyStr q.handle := by rw [hhnd]
  simp only [classifyProduct, h1, h2, h3, hpu, hpt, hth]

theorem contribs_eq_of_forall₂ {ms qs : List Product}
    (h : List.Forall₂ variantReorder ms qs) : contribs ms = contribs qs := by
  induction h with
  | nil => rfl
  | cons hpq _ ih =>
    simp only [contribs, List.filterMap_cons] at *
    rw [classify_variantReorder hpq, ih]

/-- C5 counterexample: with two products sharing handle `x` in the same
bucket, swapping the product order changes which record survives the dict
overwrite, so the classifier output is not invariant under reordering. -/
theorem reorder_changes_output_cex :
    reordered
      [Product.mk (some "A") (some "x") [⟨some "S", none, none⟩],
       Product.mk (some "B") (some "x") [⟨some "S", none, none⟩]]
      [Product.mk (some "B") (some "x") [⟨some "S", none, none⟩],
       Product.mk (some "A") (some "x") [⟨some "S", none, none⟩]] ∧
    reportEq
      (buildReport
        [Product.mk (some "A") (some "x") [⟨some "S", none, none⟩],
         Product.mk (some "B") (some "x") [⟨some "S", none, none⟩]])
      (buildReport
        [Product.mk (some "B") (some "x") [⟨some "S", none, none⟩],
         Product.mk (some "A") (some "x") [⟨some "S", none, none⟩]]) = false := by
  constructor
  · refine ⟨[Product.mk (some "B") (some "x") [⟨some "S", none, none⟩],
      Product.mk (some "A") (some "x") [⟨some "S", none, none⟩]], by decide, ?_⟩
    exact List.Forall₂.cons ⟨rfl, rfl, List.Perm.refl _⟩
      (List.Forall₂.cons ⟨rfl, rfl, List.Perm.refl _⟩ List.Forall₂.nil)
  · decide

/-- C5 amended: when no two classified products yield the same canonical
URL, the classifier output as a mapping is invariant under reordering of
the product list and of each product's variant list (and the embedding is a
pure function, so identical raw input trivially yields identical output). -/
theorem report_reorder_invariant (ps qs : List Product)
    (hre : reordered ps qs)
    (hnd : ((contribs ps).map (fun c => c.1)).Nodup) :
    reportEq (buildReport ps) (buildReport qs) = true := by
  obtain ⟨ms, hperm, hf2⟩ := hre
  have hcms : (contribs ps).Perm (contribs ms) := hperm.filterMap classifyProduct
  have hceq : contribs ms = contribs qs := contribs_eq_of_forall₂ hf2
  have hcq : (contribs ps).Perm (contribs qs) := hceq ▸ hcms
  have hlk : ∀ b url,
      lookupA (bucketOf (buildReport ps) b) url = lookupA (bucketOf (buildReport qs) b) url := by
    intro b url
    rw [lookupA_buildReport, lookupA_buildReport]
    exact contribLast_perm_unique hnd hcq b url
  rw [reportEq, Bool.and_eq_true, Bool.and_eq_true]
  refine ⟨⟨?_, ?_⟩, ?_⟩
  · exact dictEq_of_lookup_eq (buildReport_keys_nodup ps Status.part)
      (buildReport_keys_nodup qs Status.part) (fun k => hlk Status.part k)
  · exact dictEq_of_lookup_eq (buildReport_keys_nodup ps Status.full_in_stock)
      (buildReport_keys_nodup qs Status.full_in_stock) (fun k => hlk Status.full_in_stock k)
  · exact dictEq_of_lookup_eq (buildReport_keys_nodup ps Status.full_oos)
      (buildReport_keys_nodup qs Status.full_oos) (fun k => hlk Status.full_oos k)

/-- Witness for C5 (amended): two distinct-handle products, list order
swapped and one variant list reversed. -/
theorem report_reorder_invariant_witness :
    reportEq
      (buildReport
        [Product.mk (some "T1") (some "h1")
          [⟨some "S", none, none⟩, ⟨some "M", none, some (some false)⟩],
         Product.mk (some "T2") (some "h2") [⟨some "L", none, none⟩]])
      (buildReport
        [Product.mk (some "T2") (some "h2") [⟨some "L", none, none⟩],
         Product.mk (some "T1") (some "h1")
          [⟨some "M", none, some (some false)⟩, ⟨some "S", none, none⟩]]) = true :=
  report_reorder_invariant
    [Product.mk (some "T1") (some "h1")
      [⟨some "S", none, none⟩, ⟨some "M", none, some (some false)⟩],
     Product.mk (some "T2") (some "h2") [⟨some "L", none, none⟩]]
    [Product.mk (some "T2") (some "h2") [⟨some "L", none, none⟩],
     Product.mk (some "T1") (some "h1")
      [⟨some "M", none, some (some false)⟩, ⟨some "S", none, none⟩]]
    ⟨[Product.mk (some "T2") (some "h2") [⟨some "L", none, none⟩],
      Product.mk (some "T1") (some "h1")
        [⟨some "S", none, none⟩, ⟨some "M", none, some (some false)⟩]],
      by decide,
      List.Forall₂.cons ⟨rfl, rfl, List.Perm.refl _⟩
        (List.Forall₂.cons ⟨rfl, rfl, by decide⟩ List.Forall₂.nil)⟩
    (by decide)

/-! ## Flattening a report into a snapshot -/

theorem lookupA_bucketFold (st : Status) :
    ∀ (bucket : List (String × REntry)) (acc : Snapshot) (k : String),
    (bucket.map Prod.fst).Nodup →
    lookupA (bucketFold st bucket acc) k =
      match lookupA bucket k with
      | some d => some ⟨st, d.available_sizes, d.unavailable_sizes⟩
      | none => lookupA acc k
  | [], acc, k, _ => rfl
  | q :: rest, acc, k, hnd => by
    rw [List.map_cons, List.nodup_cons] at hnd
    rw [bucketFold, List.foldl_cons]
    have ih := lookupA_bucketFold st rest
      (dinsert acc q.1 ⟨st, q.2.available_sizes, q.2.unavailable_sizes⟩) k hnd.2
    rw [bucketFold] at ih
    rw [ih, lookupA]
    by_cases hq : q.1 = k
    · have hrest : lookupA rest k = none := by
        rw [lookupA_eq_none_iff]
        rw [← hq]
        exact hnd.1
      rw [hrest, if_pos hq, lookupA_dinsert, if_pos hq]
    · rw [if_neg hq]
      cases hr : lookupA rest k with
      | some d => rfl
      | none =>
        rw [lookupA_dinsert, if_neg hq]

theorem lookupA_extract (r : Report)
    (hp : (r.part.map Prod.fst).Nodup)
    (hf : (r.full_in_stock.map Prod.fst).Nodup)
    (ho : (r.full_oos.map Prod.fst).Nodup)
    (k : String) :
    lookupA (extractStateFromReport r) k =
      match lookupA r.full_oos k with
      | some d => some ⟨Status.full_oos, d.available_sizes, d.unavailable_sizes⟩
      | none =>
        match lookupA r.full_in_stock k with
        | some d => some ⟨Status.full_in_stock, d.available_sizes, d.unavailable_sizes⟩
        | none =>
          match lookupA r.part k with
          | some d => some ⟨Status.part, d.available_sizes, d.unavailable_sizes⟩
          | none => none := by
  rw [extractStateFromReport, lookupA_bucketFold _ _ _ _ ho]
  cases h3 : lookupA r.full_oos k with
  | some d => rfl
  | none =>
    rw [lookupA_bucketFold _ _ _ _ hf]
    cases h2 : lookupA r.full_in_stock k with
    | some d => rfl
    | none =>
      rw [lookupA_bucketFold _ _ _ _ hp]
      cases h1 : lookupA r.part k with
      | some d => rfl
      | none => rfl

/-- C7: flattening a report into a snapshot records each URL's bucket as its
status field, and re-deriving bucket membership from that status reproduces
the original bucket assignment; the sizes are carried over unchanged. -/
theorem snapshot_bucket_roundtrip (r : Report)
    (hp : (r.part.map Prod.fst).Nodup)
    (hf : (r.full_in_stock.map Prod.fst).Nodup)
    (ho : (r.full_oos.map Prod.fst).Nodup)
    (d1 : ∀ a ∈ r.part.map Prod.fst, a ∉ r.full_in_stock.map Prod.fst)
    (d2 : ∀ a ∈ r.part.map Prod.fst, a ∉ r.full_oos.map Prod.fst)
    (d3 : ∀ a ∈ r.full_in_stock.map Prod.fst, a ∉ r.full_oos.map Prod.fst)
    (url : String) :
    statusInSnapshot (extractStateFromReport r) url = bucketAssignment r url ∧
    (∀ b d, lookupA (bucketOf r b) url = some d →
      lookupA (extractStateFromReport r) url =
        some ⟨b, d.available_sizes, d.unavailable_sizes⟩) := by
  have hext := lookupA_extract r hp hf ho url
  have hmemp : ∀ {d}, lookupA r.part url = some d → url ∈ r.part.map Prod.fst :=
    fun hd => (lookupA_isSome_iff _ _).mp (by rw [hd]; rfl)
  have hmemf : ∀ {d}, lookupA r.full_in_stock url = some d →
      url ∈ r.full_in_stock.map Prod.fst :=
    fun hd => (lookupA_isSome_iff _ _).mp (by rw [hd]; rfl)
  have hmemo : ∀ {d}, lookupA r.full_oos url = some d → url ∈ r.full_oos.map Prod.fst :=
    fun hd => (lookupA_isSome_iff _ _).mp (by rw [hd]; rfl)
  constructor
  · rw [statusInSnapshot, hext, bucketAssignment]
    cases h1 : lookupA r.part url with
    | some d =>
      have h2 : lookupA r.full_in_stock url = none := by
        rw [lookupA_eq_none_iff]
        exact d1 url (hmemp h1)
      have h3 : lookupA r.full_oos url = none := by
        rw [lookupA_eq_none_iff]
        exact d2 url (hmemp h1)
      simp [h1, h2, h3]
    | none =>
      cases h2 : lookupA r.full_in_stock url with
      | some d =>
        have h3 : lookupA r.full_oos url = none := by
          rw [lookupA_eq_none_iff]
          exact d3 url (hmemf h2)
        simp [h1, h2, h3]
      | none =>
        cases h3 : lookupA r.full_oos url with
        | some d => simp [h1, h2, h3]
        | none => simp [h1, h2, h3]
  · intro b d hb
    rw [hext]
    cases b with
    | part =>
      have h1 : lookupA r.part url = some d := hb
      have h2 : lookupA r.full_in_stock url = none := by
        rw [lookupA_eq_none_iff]
        exact d1 url (hmemp h1)
      have h3 : lookupA r.full_oos url = none := by
        rw [lookupA_eq_none_iff]
        exact d2 url (hmemp h1)
      simp [h1, h2, h3]
    | full_in_stock =>
      have h2 : lookupA r.full_in_stock url = some d := hb
      have h3 : lookupA r.full_oos url = none := by
        rw [lookupA_eq_none_iff]
        exact d3 url (hmemf h2)
      simp [h2, h3]
    | full_oos =>
      have h3 : lookupA r.full_oos url = some d := hb
      simp [h3]

/-- Witness for C7 on a report with one product in each bucket. -/
theorem snapshot_bucket_roundtrip_witness :
    (statusInSnapshot
      (extractStateFromReport
        ⟨[("u1", ⟨"A", ["S"], ["M"]⟩)], [("u2", ⟨"B", ["L"], []⟩)], [("u3", ⟨"C", [], ["XL"]⟩)]⟩)
      "u2" =
      bucketAssignment
        ⟨[("u1", ⟨"A", ["S"], ["M"]⟩)], [("u2", ⟨"B", ["L"], []⟩)], [("u3", ⟨"C", [], ["XL"]⟩)]⟩
        "u2") ∧
    (∀ b d,
      lookupA
        (bucketOf
          ⟨[("u1", ⟨"A", ["S"], ["M"]⟩)], [("u2", ⟨"B", ["L"], []⟩)], [("u3", ⟨"C", [], ["XL"]⟩)]⟩
          b) "u2" = some d →
      lookupA
        (extractStateFromReport
          ⟨[("u1", ⟨"A", ["S"], ["M"]⟩)], [("u2", ⟨"B", ["L"], []⟩)], [("u3", ⟨"C", [], ["XL"]⟩)]⟩)
        "u2" = some ⟨b, d.available_sizes, d.unavailable_sizes⟩) :=
  snapshot_bucket_roundtrip
    ⟨[("u1", ⟨"A", ["S"], ["M"]⟩)], [("u2", ⟨"B", ["L"], []⟩)], [("u3", ⟨"C", [], ["XL"]⟩)]⟩
    (by decide) (by decide) (by decide) (by decide) (by decide) (by decide) "u2"

/-! ## Fetch failure semantics -/

theorem fetchAllAux_ok_pages :
    ∀ (pre : List (List Product)) (acc : List Product) (rest : List PageResult),
    (∀ x ∈ pre, x ≠ []) →
    fetchAllAux (pre.map (fun x => PageResult.ok 200 x) ++ rest) acc =
      fetchAllAux rest (acc ++ pre.flatten)
  | [], acc, rest, _ => by simp
  | x :: pre, acc, rest, h => by
    have hx : x ≠ [] := h x (List.mem_cons_self _ _)
    cases x with
    | nil => exact absurd rfl hx
    | cons p ps =>
      rw [List.map_cons, List.cons_append, fetchAllAux]
      have hpage : fetchProductsPage (PageResult.ok 200 (p :: ps)) = Except.ok (p :: ps) := by
        simp [fetchProductsPage]
      rw [hpage]
      dsimp only
      rw [fetchAllAux_ok_pages pre (acc ++ p :: ps) rest
        (fun y hy => h y (List.mem_cons_of_mem _ hy))]
      rw [List.flatten_cons, ← List.append_assoc]

theorem mainModel_of_fetch_ok (cfg : Config) (pages : List PageResult) (f : FileState)
    (products : List Product) (hfetch : fetchAllProducts pages = Except.ok products) :
    mainModel cfg pages f =
      if cfg.onlyEmailIfChanges &&
          !(!(jsonEqSnapshot (loadPreviousState f)
              (extractStateFromReport (buildReport products)))) then
        ⟨saveCurrentState (extractStateFromReport (buildReport products)), Except.ok false⟩
      else
        match sendEmailCheck cfg with
        | Except.error m =>
          ⟨saveCurrentState (extractStateFromReport (buildReport products)),
            Except.error (RunError.emailErr m)⟩
        | Except.ok _ =>
          ⟨saveCurrentState (extractStateFromReport (buildReport products)), Except.ok true⟩ := by
  simp only [mainModel, hfetch]

/-- C2 counterexample: a network/IO exception raised while fetching page 1
is fatal — `fetch_all_products` propagates it instead of returning the
accumulated products, the run aborts with a fetch error, and no snapshot is
written. -/
theorem network_error_fatal_cex :
    fetchAllProducts [PageResult.exc] = Except.error () ∧
    (mainModel ⟨some "u", some "p", true⟩ [PageResult.exc] FileState.missing).outcome =
      Except.error RunError.fetchErr ∧
    (mainModel ⟨some "u", some "p", true⟩ [PageResult.exc] FileState.missing).fileState =
      FileState.missing :=
  ⟨rfl, rfl, rfl⟩

/-- C2 amended: a non-2xx HTTP response (only) is non-fatal — pagination
stops at that page and all products accumulated from prior successful pages
are returned; in particular a server error on page 1 yields the empty
product list, an empty report and an empty saved snapshot, and the run does
not abort with a fetch error.  A raised network/IO exception, by contrast,
propagates (see the counterexample). -/
theorem fetch_non2xx_truncates (pre : List (List Product)) (st : Nat) (ps : List Product)
    (rest : List PageResult) (cfg : Config) (f : FileState)
    (hpre : ∀ x ∈ pre, x ≠ []) (hst : st ≠ 200) :
    fetchAllProducts (pre.map (fun x => PageResult.ok 200 x) ++ PageResult.ok st ps :: rest) =
      Except.ok pre.flatten ∧
    (mainModel cfg (PageResult.ok st ps :: rest) f).fileState = saveCurrentState [] ∧
    (mainModel cfg (PageResult.ok st ps :: rest) f).outcome ≠ Except.error RunError.fetchErr := by
  have hpage : fetchProductsPage (PageResult.ok st ps) = Except.ok [] := by
    simp [fetchProductsPage, hst]
  have hfe : ∀ rs : List PageResult,
      fetchAllProducts (PageResult.ok st ps :: rs) = Except.ok [] := by
    intro rs
    rw [fetchAllProducts, fetchAllAux, hpage]
  have h1 : fetchAllProducts
      (pre.map (fun x => PageResult.ok 200 x) ++ PageResult.ok st ps :: rest) =
      Except.ok pre.flatten := by
    rw [fetchAllProducts, fetchAllAux_ok_pages pre [] _ hpre, List.nil_append,
      fetchAllAux, hpage]
  refine ⟨h1, ?_, ?_⟩
  · rw [mainModel_of_fetch_ok cfg _ f [] (hfe rest)]
    cases hsc : sendEmailCheck cfg <;> split <;> rfl
  · rw [mainModel_of_fetch_ok cfg _ f [] (hfe rest)]
    cases hsc : sendEmailCheck cfg <;> split <;> simp

/-- Witness for C2 (amended): one good page, then a 500 on page 2. -/
theorem fetch_non2xx_truncates_witness :
    fetchAllProducts
      ([[Product.mk (some "Bowl") (some "bowl") [⟨some "S", none, none⟩]]].map
        (fun x => PageResult.ok 200 x) ++ PageResult.ok 500 [] :: []) =
      Except.ok [[Product.mk (some "Bowl") (some "bowl") [⟨some "S", none, none⟩]]].flatten ∧
    (mainModel ⟨some "u", some "p", true⟩ [PageResult.ok 500 []] FileState.missing).fileState =
      saveCurrentState [] ∧
    (mainModel ⟨some "u", some "p", true⟩ [PageResult.ok 500 []] FileState.missing).outcome ≠
      Except.error RunError.fetchErr :=
  fetch_non2xx_truncates
    [[Product.mk (some "Bowl") (some "bowl") [⟨some "S", none, none⟩]]]
    500 [] [] ⟨some "u", some "p", true⟩ FileState.missing
    (by decide) (by decide)

/-! ## Credential failure happens only at send time -/

/-- C8: with SMTP credentials missing (falsy user or password) and the fetch
succeeding, the saved state file always holds the freshly classified
snapshot — the save precedes the notification decision — and the run either
skips the email quietly or fails exactly with the credential error raised
inside `send_email`, never earlier. -/
theorem missing_credentials_fail_at_send (cfg : Config) (pages : List PageResult)
    (f : FileState) (products : List Product)
    (hfetch : fetchAllProducts pages = Except.ok products)
    (hcred : truthyStr cfg.smtpUser = false ∨ truthyStr cfg.smtpPassword = false) :
    (mainModel cfg pages f).fileState =
      saveCurrentState (extractStateFromReport (buildReport products)) ∧
    ((mainModel cfg pages f).outcome = Except.ok false ∨
      (mainModel cfg pages f).outcome = Except.error (RunError.emailErr credErrMsg)) := by
  have hsend : sendEmailCheck cfg = Except.error credErrMsg := by
    rw [sendEmailCheck]
    rcases hcred with h | h <;> simp [h]
  rw [mainModel_of_fetch_ok cfg pages f products hfetch]
  constructor
  · split
    · rfl
    · rw [hsend]
  · split
    · exact Or.inl rfl
    · rw [hsend]
      exact Or.inr rfl

/-- Witness for C8 with no credentials and unconditional notification. -/
theorem missing_credentials_fail_at_send_witness :
    (mainModel ⟨none, none, false⟩ [] FileState.missing).fileState =
      saveCurrentState (extractStateFromReport (buildReport [])) ∧
    ((mainModel ⟨none, none, false⟩ [] FileState.missing).outcome = Except.ok false ∨
      (mainModel ⟨none, none, false⟩ [] FileState.missing).outcome =
        Except.error (RunError.emailErr credErrMsg)) :=
  missing_credentials_fail_at_send ⟨none, none, false⟩ [] FileState.missing [] rfl
    (Or.inl rfl)
